import Mathlib

/-!
# Verification of the DSRL training engine (`stable_baselines3/dsrl/dsrl.py`)

A shallow embedding of the DSRL-NA update engine: the critic-ensemble TD
backup, the actor-update schedule produced by `np.linspace(...).astype(int)`,
the entropy-coefficient setup and usage, target-network synchronization,
exploration-time action sampling, the per-call event ordering of `train`, and
the cumulative update counter.

Tensors of shape `(B, d)` are modelled row-wise: a batch is a `List` of
transitions, a flat action is a `List ℚ`, and the elementwise tensor
operations of the source become `List.map` / `List.zipWith`.  Floating-point
arithmetic is modelled exactly over `ℚ`; the transcendental `log`/`exp` used
only by the entropy coefficient are modelled over `ℝ`.
-/

namespace DSRL

/-! ## Basic tensor primitives -/

/-- Row minimum, as computed by `th.min(q, dim=1)` on a row of ensemble
outputs.  The source only applies it to the outputs of a nonempty critic
ensemble; on `[]` we return `0`. -/
def qmin : List ℚ → ℚ
  | [] => 0
  | x :: xs => xs.foldl min x

/-- Row mean, as computed by `th.mean(q, dim=1)` on a row of ensemble
outputs. -/
def qmean (l : List ℚ) : ℚ := l.sum / l.length

/-- `F.mse_loss(pred, target)` with the default mean reduction: the mean of
the elementwise squared differences. -/
def mseQ (pred target : List ℚ) : ℚ :=
  (List.zipWith (fun a b => (a - b) ^ 2) pred target).sum / pred.length

/-- `tensor.reshape(-1, d)` on a flat row: regroup a flat list into
consecutive chunks of length `d`. -/
def chunkList (d : ℕ) (l : List ℚ) : List (List ℚ) :=
  if h : l = [] ∨ d = 0 then []
  else
    have : (l.drop d).length < l.length := by
      push_neg at h
      have hl : 0 < l.length := List.length_pos.mpr h.1
      have hd : 0 < d := Nat.pos_of_ne_zero h.2
      simp only [List.length_drop]
      omega
    l.take d :: chunkList d (l.drop d)
termination_by l.length

/-- Elementwise `np.clip(x, lo, hi)` on a flat row. -/
def clipList (lo hi : ℚ) (l : List ℚ) : List ℚ :=
  l.map (fun x => min hi (max lo x))

/-- Elementwise addition of two flat rows (`scaled_action + action_noise()`). -/
def addList (a b : List ℚ) : List ℚ := List.zipWith (· + ·) a b

/-! ## Critic backup combine rule

The source dispatches on the string `critic_backup_combine_type` with
`if ... == 'min': ... elif ... == 'mean': ...` and *no* else branch.
`parseCombine` captures that dispatch; `none` is the fall-through in which
the source leaves the combined tensor / the actor-objective variable
unassigned. -/

inductive Combine
  | cmin
  | cmean
deriving DecidableEq, Repr

/-- The string dispatch of `dsrl.py` lines 281-284 and 309-312. -/
def parseCombine (s : String) : Option Combine :=
  if s = "min" then some .cmin
  else if s = "mean" then some .cmean
  else none

/-- The value computed by a recognized combine rule on one row of ensemble
outputs. -/
def combineVal : Combine → List ℚ → ℚ
  | .cmin, qs => qmin qs
  | .cmean, qs => qmean qs

/-- The actor-loss ensemble reduction (`dsrl.py` lines 308-313): on an
unrecognized combine type the variable `min_qf_pi` is never assigned, so
reading it raises `UnboundLocalError` — modelled as `none`. -/
def actorCombinePi (ct : String) (qs : List ℚ) : Option ℚ :=
  (parseCombine ct).map (fun c => combineVal c qs)

/-! ## Transitions and the critic TD backup (`DSRL.train`, lines 273-295) -/

/-- One replay-buffer transition (`replay_data`), with `done` the 0/1
indicator. -/
structure Transition (α : Type) where
  obs : α
  action : List ℚ
  reward : ℚ
  nextObs : α
  done : ℚ

/-- The pieces of `DSRL` state and configuration read by the critic-loss
computation of `train`.  Critics are modelled extensionally as `ℚ`-valued
functions of (observation, flat action); the frozen diffusion decoder maps an
observation and a `(chunk, dim)`-shaped noise block to an identically shaped
action block; `unscale` is `policy.unscale_action`.  The actor's sampled
next-state action and log-probability (`actor.action_log_prob` on
`next_observations`) are modelled as functions of the observation, the random
draw being fixed. -/
structure CriticCfg (α : Type) where
  critics : List (α → List ℚ → ℚ)
  targetCritics : List (α → List ℚ → ℚ)
  gamma : ℚ
  entCoef : ℚ
  combine : Combine
  decoder : α → List (List ℚ) → List (List ℚ)
  unscale : List ℚ → List ℚ
  dim : ℕ
  nextActorAction : α → List ℚ
  nextLogProb : α → ℚ

/-- `dsrl.py` lines 275-278: sample the next action from the actor, unscale
it to raw space, reshape to `(-1, chunk, dim)`, pass it through the frozen
diffusion decoder, and flatten back. -/
def decodedNext {α : Type} (c : CriticCfg α) (o : α) : List ℚ :=
  (c.decoder o (chunkList c.dim (c.unscale (c.nextActorAction o)))).flatten

/-- `dsrl.py` lines 280-284: concatenate the target-critic outputs on the
decoded next action and reduce with the configured combine rule. -/
def codeNextQ {α : Type} (c : CriticCfg α) (t : Transition α) : ℚ :=
  combineVal c.combine
    (c.targetCritics.map (fun qf => qf t.nextObs (decodedNext c t.nextObs)))

/-- `dsrl.py` lines 286-288: subtract the entropy bonus and form the TD
target `reward + (1 - done) * gamma * backup`.  The whole computation sits
inside `th.no_grad()`, which the embedding reflects by building the target
from the target critics and the fixed `entCoef` only — no online-critic
parameter occurs in it. -/
def codeTargetQ {α : Type} (c : CriticCfg α) (t : Transition α) : ℚ :=
  t.reward + (1 - t.done) * c.gamma * (codeNextQ c t - c.entCoef * c.nextLogProb t.nextObs)

/-- `dsrl.py` lines 290-295: the critic loss
`0.5 * sum(F.mse_loss(current_q, target_q_values) for current_q in current_q_values)`,
with each online critic evaluated on the observation and the *buffer* action. -/
def codeCriticLoss {α : Type} (c : CriticCfg α) (batch : List (Transition α)) : ℚ :=
  (1 / 2) *
    (c.critics.map (fun qf =>
      mseQ (batch.map (fun t => qf t.obs t.action)) (batch.map (codeTargetQ c)))).sum

/-! ## Exploration-time action sampling (`DSRL._sample_action`, lines 418-450)

Only the continuous (`spaces.Box`) branch is modelled, as the algorithm's
supported action spaces are `(spaces.Box,)`.  The unscaled action produced
upstream (either `action_space.sample()` during warmup or
`self.predict(...)`) is an input; the optional exploration noise is an
`Option`. -/

/-- The policy/decoder functions `_sample_action` calls. -/
structure SampleCfg (α : Type) where
  scale : List ℚ → List ℚ
  unscale : List ℚ → List ℚ
  decoder : α → List (List ℚ) → List (List ℚ)
  dim : ℕ

/-- `dsrl.py` lines 430-450, the `spaces.Box` branch: scale the action to
`[-1, 1]`, optionally add noise and clip, set `buffer_action` to the scaled
action, unscale back to raw space, decode through the diffusion policy
(reshaped to `(-1, chunk, dim)` and flattened back), then overwrite
`buffer_action` with the decoded action and return
`(action, buffer_action)`. -/
def sampleActionBox {α : Type} (c : SampleCfg α) (obs : α)
    (unscaledAction : List ℚ) (noise : Option (List ℚ)) : List ℚ × List ℚ :=
  let scaled := c.scale unscaledAction
  let scaled := match noise with
    | some n => clipList (-1) 1 (addList scaled n)
    | none => scaled
  let bufferAction := scaled
  let action := c.unscale scaled
  let action := (c.decoder obs (chunkList c.dim action)).flatten
  let bufferAction := action
  (action, bufferAction)

/-! ## Target-network synchronization (`DSRL.train`, lines 321-325) -/

/-- Modelled from the spec: `polyak_update(params, target_params, tau)` lives
in `stable_baselines3/common/utils.py`, which is not part of the provided
sources; §4.3 of the spec specifies it as
`θ_targ ← (1-τ)·θ_targ + τ·θ` applied to each pair of corresponding
parameters. -/
def polyak_update (params targetParams : List ℚ) (tau : ℚ) : List ℚ :=
  List.zipWith (fun p tp => (1 - tau) * tp + tau * p) params targetParams

/-- The parameter vectors of the networks `train` touches, each flattened to
a list of scalars. -/
structure Networks where
  actorParams : List ℚ
  criticParams : List ℚ
  criticTargetParams : List ℚ
  criticNoiseParams : List ℚ
  batchNormStats : List ℚ
  batchNormStatsTarget : List ℚ

/-- `dsrl.py` lines 321-325: when triggered, Polyak-average the online critic
parameters into the target critic with coefficient `tau`, and copy the
running-normalization statistics with coefficient `1.0`.  Nothing else is
written. -/
def targetSync (tau : ℚ) (n : Networks) : Networks :=
  { n with
    criticTargetParams := polyak_update n.criticParams n.criticTargetParams tau
    batchNormStatsTarget := polyak_update n.batchNormStats n.batchNormStatsTarget 1 }

/-! ## Entropy-coefficient setup (`DSRL._setup_model`, lines 190-205) -/

/-- Numeric value of a list of decimal digit characters. -/
def natOfDigits (cs : List Char) : ℕ :=
  cs.foldl (fun a c => a * 10 + (c.toNat - 48)) 0

/-- `s.startswith(p)` on character lists. -/
def charsStartsWith : List Char → List Char → Bool
  | _, [] => true
  | [], _ :: _ => false
  | c :: cs, p :: ps => c = p && charsStartsWith cs ps

/-- Python `sep in s` for a single character. -/
def charsContains (cs : List Char) (c : Char) : Bool :=
  cs.any (· = c)

/-- Python `s.split(sep)` for a single-character separator: the maximal
runs between occurrences of `sep`, empty runs included. -/
def charsSplitOn (sep : Char) (cs : List Char) : List (List Char) :=
  cs.foldr
    (fun c acc =>
      match acc with
      | [] => [[c]]
      | a :: rest => if c = sep then [] :: a :: rest else (c :: a) :: rest)
    [[]]

/-- Modelled from the spec: the sources call Python's builtin `float(str)`
conversion, whose implementation is external; §7 of the spec relies only on
whether the string parses as a number.  Accepts `[+-]? digits [. digits]?`
and `[+-]? . digits`; returns `none` (Python: `ValueError`) otherwise. -/
def parseFloat (cs0 : List Char) : Option ℚ :=
  let go : List Char → Option ℚ := fun cs =>
    let intPart := cs.takeWhile (·.isDigit)
    let rest := cs.dropWhile (·.isDigit)
    match rest with
    | [] => if intPart.isEmpty then none else some (natOfDigits intPart)
    | '.' :: frac =>
      if frac.all (·.isDigit) && (!intPart.isEmpty || !frac.isEmpty) then
        some ((natOfDigits intPart : ℚ) + (natOfDigits frac : ℚ) / 10 ^ frac.length)
      else none
    | _ => none
  match cs0 with
  | '-' :: cs => (go cs).map (fun q => -q)
  | '+' :: cs => go cs
  | cs => go cs

/-- The `ent_coef` constructor argument: a Python float or a string. -/
inductive EntCoefInput
  | num (x : ℚ)
  | str (s : String)

/-- Exceptions `_setup_model` can raise from the `ent_coef` branch. -/
inductive SetupError
  | assertionError
  | valueError
  | indexError
deriving DecidableEq, Repr

/-- The entropy-coefficient state `_setup_model` leaves behind: either a
fixed tensor (no optimizer), or the learnable `log_ent_coef` variable. -/
inductive EntCoefState
  | fixed (c : ℚ)
  | learned (logCoef : ℝ)

/-- `dsrl.py` lines 190-205: strings starting with `"auto"` select the
learned coefficient — initial value `1.0`, or `float(s.split("_")[1])` when
the string contains an underscore, with `assert init_value > 0.0`; the
variable stored is `log_ent_coef = log(init_value)`.  Any other input is
forced through `float(...)` and stored as a fixed tensor. -/
noncomputable def setupEntCoef : EntCoefInput → Except SetupError EntCoefState
  | .num x => .ok (.fixed x)
  | .str s =>
    if charsStartsWith s.toList "auto".toList then
      if charsContains s.toList '_' then
        match (charsSplitOn '_' s.toList)[1]? with
        | some t =>
          match parseFloat t with
          | some x =>
            if 0 < x then .ok (.learned (Real.log (x : ℝ)))
            else .error .assertionError
          | none => .error .valueError
        | none => .error .indexError
      else .ok (.learned (Real.log (1 : ℝ)))
    else
      match parseFloat s.toList with
      | some x => .ok (.fixed x)
      | none => .error .valueError

/-- The coefficient value used in the backup and reported in the metrics at
a gradient step (`dsrl.py` lines 254-264): `th.exp(log_ent_coef.detach())`
when learned — `logCoef` being the current value of the optimized
log-variable — and the fixed tensor otherwise. -/
noncomputable def entCoefUsed : EntCoefState → ℝ
  | .fixed c => (c : ℝ)
  | .learned l => Real.exp l

/-! ## Constructor (`DSRL.__init__`, lines 91-170) -/

/-- The constructor arguments relevant to the modelled behaviour, with their
source defaults `diffusion_act_dim=None`, `critic_backup_combine_type='min'`,
`_init_setup_model=True`. -/
structure InitArgs where
  diffusionActDim : Option (ℕ × ℕ)
  criticBackupCombineType : String
  entCoef : EntCoefInput
  actorGradientSteps : ℤ
  noiseCriticGradSteps : ℕ
  initSetupModel : Bool

/-- Exceptions `__init__` can raise. -/
inductive InitError
  | noneSubscript
  | setupFailed (e : SetupError)

/-- The fields of the constructed algorithm object the claims read. -/
structure Config where
  diffusionActChunk : ℕ
  diffusionActDim : ℕ
  criticBackupCombineType : String
  actorGradientSteps : ℤ
  noiseCriticGradSteps : ℕ
  entCoefState : Option EntCoefState

/-- `dsrl.py` lines 126-170: after the base-class call, the constructor
stores its arguments; line 164 evaluates `diffusion_act_dim[0]`, which on the
default `None` raises `TypeError` (`noneSubscript`) — before `_setup_model`
is reached.  No validation of `critic_backup_combine_type` is performed
anywhere on this path.  `_setup_model` runs last, only when
`_init_setup_model` is true; `entCoefState` stays `none` until it has run. -/
noncomputable def init (a : InitArgs) : Except InitError Config :=
  match a.diffusionActDim with
  | none => .error .noneSubscript
  | some (chunkLen, actDim) =>
    let cfg : Config :=
      { diffusionActChunk := chunkLen
        diffusionActDim := actDim
        criticBackupCombineType := a.criticBackupCombineType
        actorGradientSteps := a.actorGradientSteps
        noiseCriticGradSteps := a.noiseCriticGradSteps
        entCoefState := none }
    if a.initSetupModel then
      match setupEntCoef a.entCoef with
      | .error e => .error (.setupFailed e)
      | .ok st => .ok { cfg with entCoefState := some st }
    else .ok cfg

/-! ## Actor-update schedule (`DSRL.train`, lines 236-239) -/

/-- Truncation toward zero — the conversion `.astype(int)` applies to each
sample of the float array produced by `np.linspace`. -/
def itrunc (q : ℚ) : ℤ := if 0 ≤ q then ⌊q⌋ else -⌊-q⌋

/-- `np.linspace(start, stop, num).astype(int)` over exact rationals: `num`
evenly spaced samples `start + i * (stop - start) / (num - 1)` from `start`
to `stop` inclusive (`[start]` when `num = 1`), each truncated toward
zero. -/
def linspaceInt (start stop : ℚ) (num : ℕ) : List ℤ :=
  if num = 0 then []
  else if num = 1 then [itrunc start]
  else
    (List.range num).map
      (fun i : ℕ => itrunc (start + (i : ℚ) * (stop - start) / ((num : ℚ) - 1)))

/-- `dsrl.py` lines 236-239: the array `actor_gradient_idx`.  When
`actor_gradient_steps < 0` it is `linspace(0, G-1, G)`; otherwise it is
`linspace(int(G / K) - 1, G-1, K)`, where `int(G / K)` truncates the Python
true division (floor, for positive operands — modelled by natural division). -/
def actorGradientIdx (gradientSteps : ℕ) (actorGradientSteps : ℤ) : List ℤ :=
  if actorGradientSteps < 0 then
    linspaceInt 0 ((gradientSteps : ℚ) - 1) gradientSteps
  else
    linspaceInt (((gradientSteps / actorGradientSteps.toNat : ℕ) : ℚ) - 1)
      ((gradientSteps : ℚ) - 1) actorGradientSteps.toNat

/-- The set of gradient-step indices at which `train` performs an actor
update: those `s < G` with `s ∈ actor_gradient_idx` (`dsrl.py` line 304). -/
def actorUpdateSteps (G : ℕ) (K : ℤ) : Finset ℕ :=
  (Finset.range G).filter (fun s => (s : ℤ) ∈ actorGradientIdx G K)

/-! ## The event trace of one `train` call (`DSRL.train`, lines 221-346) -/

/-- The observable optimization events of one `train(gradient_steps)` call. -/
inductive TrainEvent
  | entCoefUpdate (step : ℕ)
  | criticUpdate (step : ℕ)
  | actorUpdate (step : ℕ)
  | targetSyncEvt (step : ℕ)
  | noiseDistill (j : ℕ)
deriving DecidableEq, Repr

/-- The configuration fields `train` reads when sequencing its events. -/
structure TrainCfg where
  gradientSteps : ℕ
  actorGradientSteps : ℤ
  targetUpdateInterval : ℕ
  noiseCriticGradSteps : ℕ
  entCoefLearned : Bool

/-- Events of gradient step `s` up to and including the actor update, in
source order (`dsrl.py` lines 241-319): the entropy-coefficient optimizer
step when the coefficient is learned (lines 268-271), the critic optimizer
step (lines 300-302), then the actor optimizer step when `s` is a selected
index (lines 304-319). -/
def stepPre (cfg : TrainCfg) (s : ℕ) : List TrainEvent :=
  (if cfg.entCoefLearned then [TrainEvent.entCoefUpdate s] else [])
    ++ [TrainEvent.criticUpdate s]
    ++ (if (s : ℤ) ∈ actorGradientIdx cfg.gradientSteps cfg.actorGradientSteps then
          [TrainEvent.actorUpdate s]
        else [])

/-- All events of gradient step `s`: `stepPre`, then the target-network
synchronization when `s % target_update_interval == 0` (lines 321-325). -/
def stepEvents (cfg : TrainCfg) (s : ℕ) : List TrainEvent :=
  stepPre cfg s
    ++ (if s % cfg.targetUpdateInterval = 0 then [TrainEvent.targetSyncEvt s] else [])

/-- The first phase of `train`: the `G` gradient steps, in order
(`dsrl.py` lines 241-325). -/
def phaseOneTrace (cfg : TrainCfg) : List TrainEvent :=
  ((List.range cfg.gradientSteps).map (stepEvents cfg)).flatten

/-- The second phase of `train`: the noise-critic distillation steps
(`dsrl.py` lines 327-335). -/
def distillTrace (cfg : TrainCfg) : List TrainEvent :=
  (List.range cfg.noiseCriticGradSteps).map TrainEvent.noiseDistill

/-- The full event trace of one `train` call: all `G` gradient steps, then
all distillation steps. -/
def trainTrace (cfg : TrainCfg) : List TrainEvent :=
  phaseOneTrace cfg ++ distillTrace cfg

/-- Whether an event is a noise-critic distillation step. -/
def isDistill : TrainEvent → Bool
  | .noiseDistill _ => true
  | _ => false

/-- `dsrl.py` line 338: `self._n_updates += gradient_steps`, executed exactly
once per `train` call, after both loops. -/
def trainNUpdates (cfg : TrainCfg) (nUpdates : ℕ) : ℕ :=
  nUpdates + cfg.gradientSteps

/-- A concrete network-parameter state used to instantiate theorems with
hypotheses. -/
def demoNet : Networks :=
  { actorParams := [5]
    criticParams := [7]
    criticTargetParams := [9]
    criticNoiseParams := [11]
    batchNormStats := [1]
    batchNormStatsTarget := [2] }

/-- A concrete training configuration used to instantiate theorems with
hypotheses. -/
def demoTrainCfg : TrainCfg :=
  { gradientSteps := 2
    actorGradientSteps := -1
    targetUpdateInterval := 1
    noiseCriticGradSteps := 3
    entCoefLearned := true }

/-- Concrete constructor arguments with `diffusion_act_dim` left at its
`None` default. -/
def demoArgsNone : InitArgs :=
  { diffusionActDim := none
    criticBackupCombineType := "min"
    entCoef := .num 1
    actorGradientSteps := -1
    noiseCriticGradSteps := 1
    initSetupModel := true }

/-- Constructor arguments with an arbitrary combine-type string and
otherwise valid values. -/
def argsWithCombine (s : String) : InitArgs :=
  { diffusionActDim := some (2, 3)
    criticBackupCombineType := s
    entCoef := .num 1
    actorGradientSteps := -1
    noiseCriticGradSteps := 1
    initSetupModel := true }

/-! ## Helper lemmas -/

/-- Indexing a Polyak update: position `i` of the updated target vector is
`(1-τ)·target[i] + τ·online[i]`. -/
lemma polyak_update_getElem (ps ts : List ℚ) (tau : ℚ) :
    ∀ (i : ℕ) (p tp : ℚ), ps[i]? = some p → ts[i]? = some tp →
      (polyak_update ps ts tau)[i]? = some ((1 - tau) * tp + tau * p) := by
  induction ps generalizing ts with
  | nil => intro i p tp hp _; simp at hp
  | cons a as ih =>
    intro i p tp hp ht
    cases ts with
    | nil => simp at ht
    | cons b bs =>
      cases i with
      | zero =>
        simp only [List.getElem?_cons_zero, Option.some.injEq] at hp ht
        simp [polyak_update, hp, ht]
      | succ n =>
        simp only [List.getElem?_cons_succ] at hp ht
        simpa [polyak_update] using ih bs n p tp hp ht

/-- Every event of one gradient step is an entropy-coefficient, critic,
actor or synchronization event — never a distillation. -/
lemma stepEvents_no_distill (cfg : TrainCfg) (s : ℕ) :
    ∀ e ∈ stepEvents cfg s, isDistill e = false := by
  intro e he
  simp only [stepEvents, stepPre, List.append_assoc, List.mem_append,
    List.mem_singleton] at he
  rcases he with h | h | h | h
  all_goals try split at h
  all_goals simp_all [isDistill]

/-- Every event of phase one is an entropy-coefficient, critic, actor or
synchronization event — never a distillation. -/
lemma phaseOne_no_distill (cfg : TrainCfg) :
    ∀ e ∈ phaseOneTrace cfg, isDistill e = false := by
  intro e he
  simp only [phaseOneTrace, List.mem_flatten, List.mem_map] at he
  obtain ⟨l, ⟨s, _, rfl⟩, hel⟩ := he
  exact stepEvents_no_distill cfg s e hel

/-- The critic optimizer step of step `s` belongs to the pre-synchronization
part of that step's event block. -/
lemma criticUpdate_mem_stepPre (cfg : TrainCfg) (s : ℕ) :
    TrainEvent.criticUpdate s ∈ stepPre cfg s := by
  simp [stepPre]

/-- The critic optimizer step of step `s` belongs to that step's event
block. -/
lemma criticUpdate_mem_stepEvents (cfg : TrainCfg) (s : ℕ) :
    TrainEvent.criticUpdate s ∈ stepEvents cfg s := by
  simp only [stepEvents, List.mem_append]
  exact Or.inl (criticUpdate_mem_stepPre cfg s)

/-- Summing a function that is constantly `1` over a list gives its
length. -/
lemma sum_map_one {β : Type} (l : List β) (f : β → ℕ) (hf : ∀ x ∈ l, f x = 1) :
    (l.map f).sum = l.length := by
  induction l with
  | nil => rfl
  | cons a as ih =>
    simp only [List.map_cons, List.sum_cons, List.length_cons,
      hf a (List.mem_cons_self a as)]
    rw [ih (fun x hx => hf x (List.mem_cons_of_mem a hx))]
    omega

/-- Truncation toward zero agrees with the floor on nonnegative inputs. -/
lemma itrunc_of_nonneg {q : ℚ} (h : 0 ≤ q) : itrunc q = ⌊q⌋ :=
  if_pos h

/-- Truncation toward zero is the identity on integers. -/
lemma itrunc_intCast (n : ℤ) : itrunc (n : ℚ) = n := by
  unfold itrunc
  split
  · exact Int.floor_intCast n
  · rw [show (-(n : ℚ)) = ((-n : ℤ) : ℚ) by push_cast; ring, Int.floor_intCast]
    ring

/-- Unfolding `linspaceInt` at a sample count of at least two. -/
lemma linspaceInt_of_two_le (a b : ℚ) (num : ℕ) (h : 2 ≤ num) :
    linspaceInt a b num
      = (List.range num).map
          (fun i : ℕ => itrunc (a + (i : ℚ) * (b - a) / ((num : ℚ) - 1))) := by
  unfold linspaceInt
  rw [if_neg (by omega), if_neg (by omega)]

/-- With a negative `actor_gradient_steps`, the schedule is every index
`0, …, G-1`. -/
lemma actorGradientIdx_of_neg (G : ℕ) (K : ℤ) (hG : 1 ≤ G) (hK : K < 0) :
    actorGradientIdx G K = (List.range G).map (fun i => Int.ofNat i) := by
  unfold actorGradientIdx
  rw [if_pos hK]
  rcases Nat.lt_or_ge G 2 with hG2 | hG2
  · have hG1 : G = 1 := by omega
    subst hG1
    have h0 : linspaceInt 0 (((1 : ℕ) : ℚ) - 1) 1 = [itrunc 0] := by
      unfold linspaceInt
      rw [if_neg (by omega), if_pos rfl]
    rw [h0, show (0 : ℚ) = ((0 : ℤ) : ℚ) by norm_num, itrunc_intCast]
    rfl
  · rw [linspaceInt_of_two_le _ _ _ hG2]
    refine List.map_congr_left ?_
    intro i _
    have hG1 : ((G : ℚ) - 1) ≠ 0 := by
      have : (2 : ℚ) ≤ (G : ℚ) := by exact_mod_cast hG2
      intro hcon
      nlinarith
    have hval : (0 : ℚ) + (i : ℚ) * (((G : ℚ) - 1) - 0) / ((G : ℚ) - 1)
        = ((i : ℤ) : ℚ) := by
      field_simp
    rw [hval, itrunc_intCast]
    rfl

/-- For `2 ≤ k ≤ G`, the `k` truncated linspace samples from
`G/k - 1` to `G - 1` are distinct indices inside `[0, G-1]`, so exactly `k`
gradient steps match the schedule. -/
lemma card_filter_linspace_mid (G k : ℕ) (h2 : 2 ≤ k) (hkG : k ≤ G) :
    ((Finset.range G).filter
        (fun s : ℕ => (s : ℤ) ∈
          linspaceInt (((G / k : ℕ) : ℚ) - 1) ((G : ℚ) - 1) k)).card = k := by
  have hk2Q : (2 : ℚ) ≤ (k : ℚ) := by exact_mod_cast h2
  have hkGQ : (k : ℚ) ≤ (G : ℚ) := by exact_mod_cast hkG
  have hk1Q : (0 : ℚ) < (k : ℚ) - 1 := by linarith
  have hs01 : 1 ≤ G / k := (Nat.one_le_div_iff (by omega)).mpr hkG
  have hs0Q1 : (1 : ℚ) ≤ ((G / k : ℕ) : ℚ) := by exact_mod_cast hs01
  have hmul : (k : ℚ) * ((G / k : ℕ) : ℚ) ≤ (G : ℚ) := by
    calc (k : ℚ) * ((G / k : ℕ) : ℚ) = ((G / k * k : ℕ) : ℚ) := by push_cast; ring
    _ ≤ (G : ℚ) := by exact_mod_cast Nat.div_mul_le_self G k
  have haux : (0 : ℚ) ≤ ((k : ℚ) - 1) * ((G : ℚ) - (k : ℚ)) :=
    mul_nonneg (by linarith) (by linarith)
  have hs0B : ((G / k : ℕ) : ℚ) ≤ (G : ℚ) - (k : ℚ) + 1 := by nlinarith
  -- the sample points and their floors
  set x : ℕ → ℚ := fun i =>
    (((G / k : ℕ) : ℚ) - 1) +
      (i : ℚ) * (((G : ℚ) - 1) - (((G / k : ℕ) : ℚ) - 1)) / ((k : ℚ) - 1) with hxdef
  set F : ℕ → ℤ := fun i => ⌊x i⌋ with hFdef
  have hxval : ∀ i : ℕ, x i
      = (((G / k : ℕ) : ℚ) - 1) +
          (i : ℚ) * (((G : ℚ) - 1) - (((G / k : ℕ) : ℚ) - 1)) / ((k : ℚ) - 1) :=
    fun i => rfl
  have hFval : ∀ i : ℕ, F i = ⌊x i⌋ := fun i => rfl
  have hnum0 : (0 : ℚ) ≤ ((G : ℚ) - 1) - (((G / k : ℕ) : ℚ) - 1) := by linarith
  have hx0 : ∀ i : ℕ, 0 ≤ x i := by
    intro i
    rw [hxval]
    have : (0 : ℚ) ≤ (i : ℚ) * (((G : ℚ) - 1) - (((G / k : ℕ) : ℚ) - 1)) / ((k : ℚ) - 1) := by
      apply div_nonneg _ (le_of_lt hk1Q)
      exact mul_nonneg (Nat.cast_nonneg i) hnum0
    linarith
  have hstep : ∀ i : ℕ, x i + 1 ≤ x (i + 1) := by
    intro i
    rw [hxval, hxval]
    have hd1 : (1 : ℚ) ≤ (((G : ℚ) - 1) - (((G / k : ℕ) : ℚ) - 1)) / ((k : ℚ) - 1) := by
      rw [le_div_iff hk1Q]
      linarith
    have hexp : ((i : ℚ) + 1) * (((G : ℚ) - 1) - (((G / k : ℕ) : ℚ) - 1)) / ((k : ℚ) - 1)
        = (i : ℚ) * (((G : ℚ) - 1) - (((G / k : ℕ) : ℚ) - 1)) / ((k : ℚ) - 1)
          + (((G : ℚ) - 1) - (((G / k : ℕ) : ℚ) - 1)) / ((k : ℚ) - 1) := by
      ring
    push_cast
    rw [hexp]
    linarith
  have hFmono : StrictMono F := by
    apply strictMono_nat_of_lt_succ
    intro i
    rw [hFval, hFval]
    have h1 : ⌊x i + 1⌋ ≤ ⌊x (i + 1)⌋ := Int.floor_le_floor (hstep i)
    rw [show x i + 1 = x i + ((1 : ℤ) : ℚ) by norm_num, Int.floor_add_int] at h1
    omega
  have hxtop : ∀ i : ℕ, i < k → x i ≤ (G : ℚ) - 1 := by
    intro i hik
    have hik1 : (i : ℚ) ≤ (k : ℚ) - 1 := by
      have : (i : ℚ) + 1 ≤ (k : ℚ) := by exact_mod_cast hik
      linarith
    rw [hxval]
    have hmono : (i : ℚ) * (((G : ℚ) - 1) - (((G / k : ℕ) : ℚ) - 1))
        ≤ ((k : ℚ) - 1) * (((G : ℚ) - 1) - (((G / k : ℕ) : ℚ) - 1)) :=
      mul_le_mul_of_nonneg_right hik1 hnum0
    have hcancel : ((k : ℚ) - 1) * (((G : ℚ) - 1) - (((G / k : ℕ) : ℚ) - 1)) / ((k : ℚ) - 1)
        = ((G : ℚ) - 1) - (((G / k : ℕ) : ℚ) - 1) := by
      field_simp
    have hdivle : (i : ℚ) * (((G : ℚ) - 1) - (((G / k : ℕ) : ℚ) - 1)) / ((k : ℚ) - 1)
        ≤ ((k : ℚ) - 1) * (((G : ℚ) - 1) - (((G / k : ℕ) : ℚ) - 1)) / ((k : ℚ) - 1) :=
      div_le_div_of_nonneg_right hmono (le_of_lt hk1Q)
    rw [hcancel] at hdivle
    linarith
  have hF0 : ∀ i : ℕ, 0 ≤ F i := fun i => Int.floor_nonneg.mpr (hx0 i)
  have hFtop : ∀ i : ℕ, i < k → F i ≤ (G : ℤ) - 1 := by
    intro i hik
    have h1 : F i ≤ ⌊(G : ℚ) - 1⌋ := Int.floor_le_floor (hxtop i hik)
    rw [show (G : ℚ) - 1 = (((G : ℤ) - 1 : ℤ) : ℚ) by push_cast; ring,
      Int.floor_intCast] at h1
    exact h1
  -- membership in the truncated linspace
  have hmem : ∀ z : ℤ,
      (z ∈ linspaceInt (((G / k : ℕ) : ℚ) - 1) ((G : ℚ) - 1) k ↔ ∃ i < k, F i = z) := by
    intro z
    rw [linspaceInt_of_two_le _ _ _ h2]
    simp only [List.mem_map, List.mem_range]
    constructor
    · rintro ⟨i, hik, hiz⟩
      refine ⟨i, hik, ?_⟩
      rw [hFdef]
      rw [← hiz, hxdef]
      exact (itrunc_of_nonneg (hx0 i)).symm
    · rintro ⟨i, hik, hiz⟩
      refine ⟨i, hik, ?_⟩
      rw [← hiz, hFdef, hxdef]
      exact itrunc_of_nonneg (hx0 i)
  -- the matched steps are the image of the floors
  have hset : (Finset.range G).filter
      (fun s : ℕ => (s : ℤ) ∈
        linspaceInt (((G / k : ℕ) : ℚ) - 1) ((G : ℚ) - 1) k)
      = (Finset.range k).image (fun i => (F i).toNat) := by
    ext s
    simp only [Finset.mem_filter, Finset.mem_range, Finset.mem_image]
    constructor
    · rintro ⟨hsG, hsm⟩
      obtain ⟨i, hik, hiz⟩ := (hmem (s : ℤ)).mp hsm
      exact ⟨i, hik, by omega⟩
    · rintro ⟨i, hik, rfl⟩
      have h0 := hF0 i
      have htop := hFtop i hik
      refine ⟨by omega, (hmem _).mpr ⟨i, hik, by omega⟩⟩
  rw [hset, Finset.card_image_of_injOn, Finset.card_range]
  intro i _ j _ hij
  have hij' : (F i).toNat = (F j).toNat := hij
  apply hFmono.injective
  have h0i := hF0 i
  have h0j := hF0 j
  omega

/-- For `1 ≤ G < k`, the `k` truncated linspace samples from `-1` to `G - 1`
cover every index in `[0, G-1]`, so all `G` gradient steps match the
schedule. -/
lemma card_filter_linspace_gt (G k : ℕ) (hG : 1 ≤ G) (hGk : G < k) :
    ((Finset.range G).filter
        (fun s : ℕ => (s : ℤ) ∈
          linspaceInt (((G / k : ℕ) : ℚ) - 1) ((G : ℚ) - 1) k)).card = G := by
  have h2 : 2 ≤ k := by omega
  have hs0 : G / k = 0 := Nat.div_eq_of_lt hGk
  have hGQ : (1 : ℚ) ≤ (G : ℚ) := by exact_mod_cast hG
  have hG0 : (0 : ℚ) < (G : ℚ) := by linarith
  have hk1Q : (0 : ℚ) < (k : ℚ) - 1 := by
    have : (2 : ℚ) ≤ (k : ℚ) := by exact_mod_cast h2
    linarith
  have hGk1 : (G : ℚ) ≤ (k : ℚ) - 1 := by
    have : ((G + 1 : ℕ) : ℚ) ≤ (k : ℚ) := by exact_mod_cast hGk
    push_cast at this
    linarith
  have hfull : (Finset.range G).filter
      (fun s : ℕ => (s : ℤ) ∈
        linspaceInt (((G / k : ℕ) : ℚ) - 1) ((G : ℚ) - 1) k)
      = Finset.range G := by
    refine Finset.filter_true_of_mem ?_
    intro j hjG
    have hj : j < G := Finset.mem_range.mp hjG
    have hjQ : (j : ℚ) + 1 ≤ (G : ℚ) := by exact_mod_cast hj
    rw [linspaceInt_of_two_le _ _ _ h2, hs0]
    simp only [List.mem_map, List.mem_range]
    -- the sample falling in [j, j+1)
    set c : ℚ := ((j : ℚ) + 1) * ((k : ℚ) - 1) / (G : ℚ) with hcdef
    have hc0 : 0 < c := by
      rw [hcdef]
      positivity
    have hceil0 : 0 < ⌈c⌉ := Int.ceil_pos.mpr hc0
    have hceilk : ⌈c⌉ ≤ (k : ℤ) - 1 := by
      rw [Int.ceil_le]
      rw [hcdef, div_le_iff hG0]
      push_cast
      nlinarith
    refine ⟨(⌈c⌉).toNat, by omega, ?_⟩
    have hcast : (((⌈c⌉).toNat : ℕ) : ℚ) = ((⌈c⌉ : ℤ) : ℚ) := by
      exact_mod_cast Int.toNat_of_nonneg (le_of_lt hceil0)
    -- the sample value lies in [j, j+1)
    have harg : (((0 : ℕ) : ℚ) - 1) +
        (((⌈c⌉).toNat : ℕ) : ℚ) *
          (((G : ℚ) - 1) - (((0 : ℕ) : ℚ) - 1)) / ((k : ℚ) - 1)
        = -1 + ((⌈c⌉ : ℤ) : ℚ) * (G : ℚ) / ((k : ℚ) - 1) := by
      rw [hcast]
      push_cast
      ring
    have hmulc : c * (G : ℚ) = ((j : ℚ) + 1) * ((k : ℚ) - 1) := by
      rw [hcdef, div_mul_cancel₀]
      exact ne_of_gt hG0
    have hlow : (j : ℚ) ≤ -1 + ((⌈c⌉ : ℤ) : ℚ) * (G : ℚ) / ((k : ℚ) - 1) := by
      have h1 : c ≤ ((⌈c⌉ : ℤ) : ℚ) := Int.le_ceil c
      have h3 : ((j : ℚ) + 1) * ((k : ℚ) - 1) ≤ ((⌈c⌉ : ℤ) : ℚ) * (G : ℚ) := by
        nlinarith
      have h4 : ((j : ℚ) + 1) ≤ ((⌈c⌉ : ℤ) : ℚ) * (G : ℚ) / ((k : ℚ) - 1) :=
        (le_div_iff hk1Q).mpr h3
      linarith
    have hhigh : -1 + ((⌈c⌉ : ℤ) : ℚ) * (G : ℚ) / ((k : ℚ) - 1) < (j : ℚ) + 1 := by
      have h1 : ((⌈c⌉ : ℤ) : ℚ) < c + 1 := Int.ceil_lt_add_one c
      have h3 : ((⌈c⌉ : ℤ) : ℚ) * (G : ℚ) < ((j : ℚ) + 2) * ((k : ℚ) - 1) := by
        nlinarith [mul_lt_mul_of_pos_right h1 hG0]
      have h4 : ((⌈c⌉ : ℤ) : ℚ) * (G : ℚ) / ((k : ℚ) - 1) < (j : ℚ) + 2 :=
        (div_lt_iff hk1Q).mpr h3
      linarith
    rw [harg]
    have hnn : (0 : ℚ) ≤ -1 + ((⌈c⌉ : ℤ) : ℚ) * (G : ℚ) / ((k : ℚ) - 1) := by
      have : (0 : ℚ) ≤ (j : ℚ) := Nat.cast_nonneg j
      linarith
    rw [itrunc_of_nonneg hnn]
    rw [Int.floor_eq_iff]
    constructor
    · push_cast
      linarith
    · push_cast
      linarith
  rw [hfull, Finset.card_range]

/-- With `actor_gradient_steps = 1`, the schedule is the single index
`G - 1`. -/
lemma actorGradientIdx_one (G : ℕ) (hG : 1 ≤ G) :
    actorGradientIdx G 1 = [((G : ℤ) - 1)] := by
  unfold actorGradientIdx
  rw [if_neg (by norm_num)]
  have h0 : linspaceInt (((G / Int.toNat 1 : ℕ) : ℚ) - 1) ((G : ℚ) - 1) (Int.toNat 1)
      = [itrunc (((G / Int.toNat 1 : ℕ) : ℚ) - 1)] := by
    unfold linspaceInt
    rw [if_neg (by decide), if_pos (by decide)]
  rw [h0]
  have hdiv : ((G / Int.toNat 1 : ℕ) : ℚ) - 1 = (((G : ℤ) - 1 : ℤ) : ℚ) := by
    rw [Int.toNat_one, Nat.div_one]
    push_cast
    ring
  rw [hdiv, itrunc_intCast]

/-- With a negative `actor_gradient_steps`, every gradient step is an
actor-update step. -/
lemma actorUpdateSteps_of_neg (G : ℕ) (K : ℤ) (hG : 1 ≤ G) (hK : K < 0) :
    actorUpdateSteps G K = Finset.range G := by
  unfold actorUpdateSteps
  refine Finset.filter_true_of_mem ?_
  intro s hs
  rw [actorGradientIdx_of_neg G K hG hK]
  simp only [List.mem_map, List.mem_range]
  exact ⟨s, Finset.mem_range.mp hs, rfl⟩

/-- With `actor_gradient_steps = 1`, only the last gradient step is an
actor-update step. -/
lemma actorUpdateSteps_card_one (G : ℕ) (hG : 1 ≤ G) :
    (actorUpdateSteps G 1).card = 1 := by
  have hset : actorUpdateSteps G 1 = {G - 1} := by
    unfold actorUpdateSteps
    ext s
    simp only [Finset.mem_filter, Finset.mem_range, actorGradientIdx_one G hG,
      List.mem_singleton, Finset.mem_singleton]
    omega
  rw [hset]
  rfl

end DSRL

namespace DSRL

/-! ## Claim theorems -/

/-- C1: for every gradient step of `train`, the critic loss equals half the
sum over the online critics of the mean-squared error between each critic's
estimate on (observation, buffer action) and the target
`reward + (1 - done) * gamma * (combined_target_Q - ent_coef * next_log_prob)`,
where `combined_target_Q` reduces the target-critic ensemble evaluated on the
decoded next action with the configured combine rule.  The target is built
from the target critics, the frozen decoder and the detached coefficient
only, so no gradient flows through it. -/
theorem critic_loss_is_half_sum_mse {α : Type} (c : CriticCfg α)
    (batch : List (Transition α)) :
    codeCriticLoss c batch =
      (1 / 2) *
        (c.critics.map (fun qf =>
          mseQ (batch.map (fun t => qf t.obs t.action))
            (batch.map (fun t =>
              t.reward + (1 - t.done) * c.gamma *
                (combineVal c.combine
                    (c.targetCritics.map
                      (fun qtarg => qtarg t.nextObs (decodedNext c t.nextObs)))
                  - c.entCoef * c.nextLogProb t.nextObs))))).sum := by
  rfl

/-- C7: for a continuous (`Box`) action space, `_sample_action` returns a
pair whose two components are identical, both equal to the decoded, flattened
output of the diffusion decoder applied to the (possibly noise-perturbed and
clipped, then unscaled) sampled action reshaped to `(chunk, dim)` blocks. -/
theorem sample_action_returns_decoded_pair {α : Type} (c : SampleCfg α) (obs : α)
    (u : List ℚ) (noise : Option (List ℚ)) :
    (sampleActionBox c obs u noise).1 = (sampleActionBox c obs u noise).2 ∧
    sampleActionBox c obs u noise =
      (let perturbed :=
        match noise with
        | some n => clipList (-1) 1 (addList (c.scale u) n)
        | none => c.scale u
      let decoded := (c.decoder obs (chunkList c.dim (c.unscale perturbed))).flatten
      (decoded, decoded)) := by
  refine ⟨?_, ?_⟩ <;> cases noise <;> rfl

/-- C5: for all `τ ∈ (0,1]`, after one target-network synchronization every
target critic parameter equals `(1-τ)·old_target + τ·online` exactly, every
running-normalization statistic of the target is an exact copy of the online
statistic, and the synchronization does not touch the actor or the noise
critic. -/
theorem target_sync_polyak_exact (tau : ℚ) (h0 : 0 < tau) (h1 : tau ≤ 1)
    (n : Networks) :
    (∀ (i : ℕ) (p tp : ℚ), n.criticParams[i]? = some p →
        n.criticTargetParams[i]? = some tp →
        (targetSync tau n).criticTargetParams[i]? = some ((1 - tau) * tp + tau * p)) ∧
    (∀ (j : ℕ) (st old : ℚ), n.batchNormStats[j]? = some st →
        n.batchNormStatsTarget[j]? = some old →
        (targetSync tau n).batchNormStatsTarget[j]? = some st) ∧
    (targetSync tau n).actorParams = n.actorParams ∧
    (targetSync tau n).criticNoiseParams = n.criticNoiseParams := by
  refine ⟨?_, ?_, rfl, rfl⟩
  · intro i p tp hp ht
    exact polyak_update_getElem n.criticParams n.criticTargetParams tau i p tp hp ht
  · intro j st old hst hold
    have := polyak_update_getElem n.batchNormStats n.batchNormStatsTarget 1 j st old hst hold
    simpa using this

/-- Witness for C5 at `τ = 1/2` on concrete one-parameter networks. -/
theorem target_sync_polyak_exact_witness :
    (targetSync (1 / 2) demoNet).criticTargetParams[0]? =
        some ((1 - 1 / 2) * 9 + (1 / 2) * 7) ∧
    (targetSync (1 / 2) demoNet).batchNormStatsTarget[0]? = some 1 ∧
    (targetSync (1 / 2) demoNet).actorParams = demoNet.actorParams ∧
    (targetSync (1 / 2) demoNet).criticNoiseParams = demoNet.criticNoiseParams := by
  obtain ⟨hpar, hstat, hact, hnoise⟩ :=
    target_sync_polyak_exact (1 / 2) (by norm_num) (by norm_num) demoNet
  exact ⟨hpar 0 7 9 rfl rfl, hstat 0 1 2 rfl rfl, hact, hnoise⟩

/-- C2: for every `G ≥ 1`, the actor updates of `train` happen exactly at
the step indices of the truncated-linspace schedule: at every step in
`0..G-1` when `actor_gradient_steps` is negative, and at the `K` evenly
spaced truncated indices `linspace(G/K - 1, G-1, K)` otherwise; for `K > 0`
the number of steps at which an actor update occurs is exactly
`min(K, G)`. -/
theorem actor_update_schedule (G : ℕ) (K : ℤ) (hG : 1 ≤ G) :
    (K < 0 → actorUpdateSteps G K = Finset.range G) ∧
    (0 < K → (actorUpdateSteps G K).card = min K.toNat G) ∧
    (∀ s : ℕ, s ∈ actorUpdateSteps G K ↔ s < G ∧ (s : ℤ) ∈ actorGradientIdx G K) := by
  refine ⟨fun hK => actorUpdateSteps_of_neg G K hG hK, ?_, ?_⟩
  · intro hK
    have hKnn : ¬ K < 0 := by omega
    have hidx : actorGradientIdx G K
        = linspaceInt (((G / K.toNat : ℕ) : ℚ) - 1) ((G : ℚ) - 1) K.toNat := by
      unfold actorGradientIdx
      rw [if_neg hKnn]
    rcases Nat.lt_or_ge K.toNat 2 with h1 | h2
    · have hK1 : K = 1 := by omega
      subst hK1
      rw [actorUpdateSteps_card_one G hG]
      have h1' : Int.toNat 1 = 1 := rfl
      rw [h1']
      omega
    · rcases Nat.lt_or_ge G K.toNat with hGk | hkG
      · have hcard := card_filter_linspace_gt G K.toNat hG hGk
        unfold actorUpdateSteps
        simp only [hidx]
        rw [hcard]
        omega
      · have hcard := card_filter_linspace_mid G K.toNat h2 hkG
        unfold actorUpdateSteps
        simp only [hidx]
        rw [hcard]
        omega
  · intro s
    unfold actorUpdateSteps
    simp [Finset.mem_filter, Finset.mem_range]

/-- Witness for C2 at `G = 10` with `K = 3` and `K = -1`. -/
theorem actor_update_schedule_witness :
    (actorUpdateSteps 10 3).card = min (Int.toNat 3) 10 ∧
    actorUpdateSteps 10 (-1) = Finset.range 10 :=
  ⟨(actor_update_schedule 10 3 (by norm_num)).2.1 (by norm_num),
   (actor_update_schedule 10 (-1) (by norm_num)).1 (by norm_num)⟩

/-- C6: `_setup_model` fails for every `ent_coef` string that is neither
`"auto"`-prefixed nor float-parseable, and for every `"auto_X"` string with
`X ≤ 0`; for `"auto_X"` with `X > 0` it initializes
`log_ent_coef = log(X)`. -/
theorem ent_coef_setup_validation :
    (∀ s : String, charsStartsWith s.toList "auto".toList = false →
        parseFloat s.toList = none →
        setupEntCoef (.str s) = .error .valueError) ∧
    (∀ (s : String) (t : List Char) (x : ℚ),
        charsStartsWith s.toList "auto".toList = true →
        charsContains s.toList '_' = true →
        (charsSplitOn '_' s.toList)[1]? = some t → parseFloat t = some x → x ≤ 0 →
        setupEntCoef (.str s) = .error .assertionError) ∧
    (∀ (s : String) (t : List Char) (x : ℚ),
        charsStartsWith s.toList "auto".toList = true →
        charsContains s.toList '_' = true →
        (charsSplitOn '_' s.toList)[1]? = some t → parseFloat t = some x → 0 < x →
        setupEntCoef (.str s) = .ok (.learned (Real.log (x : ℝ)))) := by
  refine ⟨?_, ?_, ?_⟩
  · intro s h1 h2
    have h1' : charsStartsWith s.data ['a', 'u', 't', 'o'] = false := h1
    have h2' : parseFloat s.data = none := h2
    simp [setupEntCoef, h1', h2']
  · intro s t x h1 h2 h3 h4 h5
    have h1' : charsStartsWith s.data ['a', 'u', 't', 'o'] = true := h1
    have h2' : charsContains s.data '_' = true := h2
    have h3' : (charsSplitOn '_' s.data)[1]? = some t := h3
    simp [setupEntCoef, h1', h2', h3', h4, not_lt.mpr h5]
  · intro s t x h1 h2 h3 h4 h5
    have h1' : charsStartsWith s.data ['a', 'u', 't', 'o'] = true := h1
    have h2' : charsContains s.data '_' = true := h2
    have h3' : (charsSplitOn '_' s.data)[1]? = some t := h3
    simp [setupEntCoef, h1', h2', h3', h4, h5]

/-- Witness for C6 on the strings `"hello"`, `"auto_0"` and `"auto_2"`. -/
theorem ent_coef_setup_validation_witness :
    setupEntCoef (.str "hello") = .error .valueError ∧
    setupEntCoef (.str "auto_0") = .error .assertionError ∧
    setupEntCoef (.str "auto_2") = .ok (.learned (Real.log ((2 : ℚ) : ℝ))) :=
  ⟨ent_coef_setup_validation.1 "hello" (by decide) (by decide),
   ent_coef_setup_validation.2.1 "auto_0" ['0'] 0 (by decide) (by decide) (by decide)
     (by decide) le_rfl,
   ent_coef_setup_validation.2.2 "auto_2" ['2'] 2 (by decide) (by decide)
     (by decide) (by decide) (by norm_num)⟩

/-- C9: constructing `DSRL` with `diffusion_act_dim` left at its `None`
default fails (subscripting `None` at line 164) before `_setup_model` can
run — the error raised is the subscript error, not a setup error. -/
theorem init_none_diffusion_act_dim_fails (a : InitArgs)
    (h : a.diffusionActDim = none) :
    DSRL.init a = .error .noneSubscript ∧
    ∀ e : SetupError, InitError.noneSubscript ≠ InitError.setupFailed e := by
  refine ⟨?_, fun e hcon => by cases hcon⟩
  simp only [DSRL.init, h]

/-- Witness for C9: concrete constructor arguments with the `None` default. -/
theorem init_none_diffusion_act_dim_fails_witness :
    DSRL.init demoArgsNone = .error .noneSubscript ∧
    ∀ e : SetupError, InitError.noneSubscript ≠ InitError.setupFailed e :=
  init_none_diffusion_act_dim_fails demoArgsNone rfl

/-- C3 (latent defect in the source): the constructor accepts *every*
combine-type string unchanged — no configuration-time rejection happens —
while the train-time dispatch of an unrecognized value such as `"max"`
matches neither branch and leaves the actor objective unassigned (a runtime
`UnboundLocalError`, modelled as `none`). -/
theorem combine_type_never_validated :
    (∀ s : String,
        DSRL.init (argsWithCombine s) =
          .ok { diffusionActChunk := 2, diffusionActDim := 3,
                criticBackupCombineType := s, actorGradientSteps := -1,
                noiseCriticGradSteps := 1, entCoefState := some (.fixed 1) }) ∧
    parseCombine "max" = none ∧
    actorCombinePi "max" [1, 2] = none :=
  ⟨fun _ => rfl, rfl, rfl⟩

/-- C4 counterexample: a fixed `ent_coef = -1.0` is accepted by
`_setup_model` (`float(-1.0)` succeeds, nothing checks the sign) and the
coefficient value used in the backup and the metrics is `-1 < 0`. -/
theorem ent_coef_fixed_negative_accepted :
    setupEntCoef (.num (-1)) = .ok (.fixed (-1)) ∧
    entCoefUsed (.fixed (-1)) < 0 :=
  ⟨rfl, by norm_num [entCoefUsed]⟩

/-- C4 (amended): the coefficient used in the backup and the metrics is
`exp(log_ent_coef)` when learned — strictly positive for any value of the
log-variable, hence after any number of updates — and the fixed constant
otherwise, which is strictly positive whenever the configured constant is. -/
theorem ent_coef_used_positivity :
    (∀ l : ℝ, 0 < entCoefUsed (.learned l)) ∧
    (∀ c : ℚ, entCoefUsed (.fixed c) = (c : ℝ)) ∧
    (∀ c : ℚ, 0 < c → 0 < entCoefUsed (.fixed c)) := by
  refine ⟨fun l => ?_, fun c => rfl, fun c hc => ?_⟩
  · simpa [entCoefUsed] using Real.exp_pos l
  · simpa [entCoefUsed] using (by exact_mod_cast hc : (0 : ℝ) < (c : ℝ))

/-- Witness for C4 (amended) at `log_ent_coef = 0` and fixed `1/10`. -/
theorem ent_coef_used_positivity_witness :
    0 < entCoefUsed (.learned 0) ∧ 0 < entCoefUsed (.fixed (1 / 10)) :=
  ⟨ent_coef_used_positivity.1 0,
   ent_coef_used_positivity.2.2 (1 / 10) (by norm_num)⟩

/-- C8: within a `train` call, the target-network synchronization of a step
(when triggered) comes strictly after that step's critic optimizer step, and
every noise-critic distillation event comes after all gradient-step events —
the two phases are sequential and never interleaved. -/
theorem train_two_phase_ordering (cfg : TrainCfg) :
    (∀ s : ℕ, s % cfg.targetUpdateInterval = 0 →
        stepEvents cfg s = stepPre cfg s ++ [TrainEvent.targetSyncEvt s] ∧
        TrainEvent.criticUpdate s ∈ stepPre cfg s ∧
        TrainEvent.targetSyncEvt s ∉ stepPre cfg s) ∧
    trainTrace cfg = phaseOneTrace cfg ++ distillTrace cfg ∧
    (∀ e ∈ phaseOneTrace cfg, isDistill e = false) ∧
    (∀ e ∈ distillTrace cfg, isDistill e = true) ∧
    (∀ s : ℕ, s < cfg.gradientSteps → TrainEvent.criticUpdate s ∈ phaseOneTrace cfg) := by
  refine ⟨?_, rfl, phaseOne_no_distill cfg, ?_, ?_⟩
  · intro s hs
    refine ⟨by simp [stepEvents, hs], criticUpdate_mem_stepPre cfg s, ?_⟩
    cases hE : cfg.entCoefLearned <;>
      by_cases hA : (s : ℤ) ∈ actorGradientIdx cfg.gradientSteps cfg.actorGradientSteps <;>
      simp [stepPre, hE, hA]
  · intro e he
    simp only [distillTrace, List.mem_map] at he
    obtain ⟨j, _, rfl⟩ := he
    rfl
  · intro s hs
    simp only [phaseOneTrace, List.mem_flatten, List.mem_map]
    exact ⟨stepEvents cfg s, ⟨s, List.mem_range.mpr hs, rfl⟩,
      criticUpdate_mem_stepEvents cfg s⟩

/-- Witness for C8 on a concrete configuration (`G = 2`, sync every step,
three distillation steps). -/
theorem train_two_phase_ordering_witness :
    stepEvents demoTrainCfg 0 = stepPre demoTrainCfg 0 ++ [TrainEvent.targetSyncEvt 0] ∧
    TrainEvent.criticUpdate 0 ∈ stepPre demoTrainCfg 0 ∧
    TrainEvent.criticUpdate 1 ∈ phaseOneTrace demoTrainCfg := by
  obtain ⟨h1, _, _, _, h5⟩ := train_two_phase_ordering demoTrainCfg
  obtain ⟨ha, hb, _⟩ := h1 0 (by decide)
  exact ⟨ha, hb, h5 1 (by decide)⟩

/-- C10: a `train` call with `G` gradient steps increases `_n_updates` by
exactly `G`, independently of `noise_critic_grad_steps` and of the actor
schedule; the distillation steps (whose number is `noise_critic_grad_steps`)
and the actor updates are not counted. -/
theorem n_updates_increment_is_gradient_steps (cfg : TrainCfg) (n : ℕ) :
    trainNUpdates cfg n = n + cfg.gradientSteps ∧
    (∀ (N : ℕ) (K : ℤ),
        trainNUpdates
            { cfg with noiseCriticGradSteps := N, actorGradientSteps := K } n =
          n + cfg.gradientSteps) ∧
    (distillTrace cfg).length = cfg.noiseCriticGradSteps ∧
    (phaseOneTrace cfg).countP (fun e => isDistill e) = 0 ∧
    (phaseOneTrace cfg).countP (fun e =>
        match e with
        | TrainEvent.criticUpdate _ => true
        | _ => false) = cfg.gradientSteps := by
  refine ⟨rfl, fun N K => rfl, by simp [distillTrace], ?_, ?_⟩
  · exact List.countP_eq_zero.mpr (by simpa using phaseOne_no_distill cfg)
  · simp only [phaseOneTrace, List.countP_flatten, List.map_map]
    rw [sum_map_one]
    · simp
    · intro s _
      simp only [Function.comp_apply]
      cases hE : cfg.entCoefLearned <;>
        by_cases hA : (s : ℤ) ∈ actorGradientIdx cfg.gradientSteps cfg.actorGradientSteps <;>
        by_cases hT : s % cfg.targetUpdateInterval = 0 <;>
        simp [stepEvents, stepPre, hE, hA, hT, List.countP_append, List.countP_cons]

end DSRL
